import Mathlib

/-!
# HeaderSettingsDnD: drag-and-drop reordering of table header columns

A shallow embedding of `src/plugins/HeaderSettingsDnD.js`.

* JavaScript numbers are `JsNum`: `NaN`, or a finite value kept as an exact rational.  The values the
  plugin computes with are source indices (integers), target indices (multiples of `0.25`) and
  their differences, on which IEEE doubles are exact.
* DOM attributes are `Option String` (`none` is `undefined`, the value `.attr(name)` yields for a
  missing attribute).
* The header (`thead`) is a list of rows of `th` elements, the body (`tbody`) a list of rows of
  `td` elements.  A `th` carries a node identity `id`, which is how a handler finds `this` again
  after the tree was changed.
* An array slot that JavaScript would fill with `undefined` is filled with `default`.
* Every call `dnd(vm)` has its own closure variable `draggingIdx`, kept in the `State` of its
  table, but `$.fn.isAllowedToDrop` is one property of the jQuery prototype that every call
  assigns again.  A page is the list of attached tables in the order of the calls; the function in
  force is the one of the last call and reads the last call's `draggingIdx`.  The handlers
  `dragoverHandler`, `dragenterHandler`, `dragleaveHandler` and `dropHandler` take that variable as
  `installed`; `onDragover`, `onDragenter`, `onDragleave` and `onDrop` are the handlers of the table
  attached last, for which it is the table's own.
-/

namespace HeaderSettingsDnD

/-! ## Numbers -/

/-- A JavaScript number: `NaN` or a finite value. -/
inductive JsNum where
  | nan
  | fin (q : ℚ)
  deriving DecidableEq

namespace JsNum

/-- The operator `a - b` on numbers. -/
def sub : JsNum → JsNum → JsNum
  | fin a, fin b => fin (a - b)
  | _, _ => nan

/-- The unary operator `-a`. -/
def neg : JsNum → JsNum
  | fin a => fin (-a)
  | nan => nan

/-- The function `Math.ceil`. -/
def ceil : JsNum → JsNum
  | fin a => fin (⌈a⌉ : ℤ)
  | nan => nan

/-- The operator `a < b` on numbers: false as soon as one side is `NaN`. -/
def lt : JsNum → JsNum → Bool
  | fin a, fin b => decide (a < b)
  | _, _ => false

/-- The abstract operation `ToIntegerOrInfinity`: `NaN` becomes `0`, a finite value is truncated
towards zero. -/
def toInteger : JsNum → ℤ
  | nan => 0
  | fin a => if 0 ≤ a then ⌊a⌋ else ⌈a⌉

/-- The method `Array.prototype.includes` on an array of finite numbers: `NaN` is not found. -/
def includes (xs : List ℚ) : JsNum → Bool
  | nan => false
  | fin a => decide (a ∈ xs)

end JsNum

/-- The abstract operation `ToNumber` on a value that is `null` (`none`) or a number: `null`
becomes `0`. -/
def ofNullable : Option JsNum → JsNum
  | none => JsNum.fin 0
  | some n => n

/-! ## Strings and their conversions -/

/-- White space and line terminators, the characters `String.prototype.trim` and `ToNumber`
strip. -/
def isWhiteSpace (c : Char) : Bool :=
  c.toNat ∈ [0x09, 0x0A, 0x0B, 0x0C, 0x0D, 0x20, 0xA0, 0x1680, 0x2000, 0x2001, 0x2002, 0x2003,
    0x2004, 0x2005, 0x2006, 0x2007, 0x2008, 0x2009, 0x200A, 0x2028, 0x2029, 0x202F, 0x205F,
    0x3000, 0xFEFF]

/-- Strip white space from both ends of a character list. -/
def trimChars (cs : List Char) : List Char :=
  ((cs.dropWhile isWhiteSpace).reverse.dropWhile isWhiteSpace).reverse

/-- The method `String.prototype.trim`. -/
def trim (s : String) : String := String.mk (trimChars s.data)

/-- The value of a decimal digit, `none` for any other character. -/
def digitValue (c : Char) : Option ℕ :=
  if 48 ≤ c.toNat ∧ c.toNat ≤ 57 then some (c.toNat - 48) else none

/-- The value of a run of decimal digits read left to right from `acc`; `none` when a character
is not a digit. -/
def digitsValueAux (acc : ℕ) : List Char → Option ℕ
  | [] => some acc
  | c :: cs =>
    match digitValue c with
    | some d => digitsValueAux (10 * acc + d) cs
    | none => none

/-- An unsigned decimal literal `digits`, `digits.`, `digits.digits` or `.digits`; anything else
is `NaN`. -/
def parseUnsigned (cs : List Char) : JsNum :=
  let ip := cs.takeWhile (fun c => c != '.')
  let fp := (cs.dropWhile (fun c => c != '.')).drop 1
  if ip.isEmpty && fp.isEmpty then JsNum.nan
  else
    match digitsValueAux 0 ip, digitsValueAux 0 fp with
    | some a, some b => JsNum.fin ((a : ℚ) + (b : ℚ) / (10 : ℚ) ^ fp.length)
    | _, _ => JsNum.nan

/-- The abstract operation `ToNumber` on a string, for the literals the plugin itself writes into
attributes: optional white space, an optional sign and a decimal literal without exponent.  The
empty string is `0`; any other text is `NaN`. -/
def stringToNumber (s : String) : JsNum :=
  let cs := trimChars s.data
  if cs.isEmpty then JsNum.fin 0
  else if cs.head? = some '-' then (parseUnsigned cs.tail).neg
  else if cs.head? = some '+' then parseUnsigned cs.tail
  else parseUnsigned cs

/-- The unary plus `+v` on an attribute value: `undefined` is `NaN`. -/
def toNumber : Option String → JsNum
  | none => JsNum.nan
  | some s => stringToNumber s

/-- The character of a decimal digit. -/
def digitChar (d : ℕ) : Char := Char.ofNat (48 + d)

/-- The decimal digits of a natural number, most significant first (`fuel` bounds the number of
digits). -/
def natDigits : ℕ → ℕ → List Char
  | 0, _ => []
  | fuel + 1, n => if n < 10 then [digitChar n] else natDigits fuel (n / 10) ++ [digitChar (n % 10)]

/-- The decimal digits of a natural number. -/
def natToChars (n : ℕ) : List Char := natDigits (n + 1) n

/-- The digits after the decimal point of `r`, for `0 ≤ r < 1`, until the remainder vanishes
(at most `fuel` digits). -/
def fracDigits : ℕ → ℚ → List Char
  | 0, _ => []
  | fuel + 1, r =>
    if r = 0 then []
    else digitChar (⌊r * 10⌋).toNat :: fracDigits fuel (r * 10 - (⌊r * 10⌋ : ℤ))

/-- The abstract operation `Number::toString` (radix 10), for values with a short decimal
expansion: sign, integer part and, when there is one, the fractional part. -/
def numToString : JsNum → String
  | JsNum.nan => "NaN"
  | JsNum.fin q =>
    let a := |q|
    let ip := natToChars (⌊a⌋).toNat
    let fp := fracDigits 20 (a - (⌊a⌋ : ℤ))
    String.mk ((if q < 0 then ['-'] else []) ++ ip ++ (if fp.isEmpty then [] else '.' :: fp))

/-- The conversion of an attribute value inside a template literal: `undefined` prints as
`undefined`. -/
def attrToString : Option String → String
  | none => "undefined"
  | some s => s

/-! ## Arrays -/

/-- The method `Array.prototype.splice(start, deleteCount, ...items)`: the removed elements and the
array afterwards. -/
def splice {α : Type} (arr : List α) (start : JsNum) (deleteCount : ℕ) (items : List α) :
    List α × List α :=
  let len : ℤ := arr.length
  let relativeStart := start.toInteger
  let actualStart : ℤ :=
    if relativeStart < 0 then max (len + relativeStart) 0 else min relativeStart len
  let actualDeleteCount : ℤ := min (deleteCount : ℤ) (len - actualStart)
  let k := actualStart.toNat
  let d := actualDeleteCount.toNat
  ((arr.drop k).take d, arr.take k ++ items ++ arr.drop (k + d))

/-- The function `arrMove(arr, from, to)`:
`arr.splice((from < to ? to - 1 : to), 0, arr.splice(from, 1)[0])`.
The insertion index is computed first, then the inner `splice` removes, then the outer one
inserts what was removed (`undefined`, here `default`, when nothing was). -/
def arrMove {α : Type} [Inhabited α] (arr : List α) (fromIdx : Option JsNum) (toIdx : JsNum) :
    List α :=
  let start := if (ofNullable fromIdx).lt toIdx then toIdx.sub (JsNum.fin 1) else toIdx
  let removed := splice arr (ofNullable fromIdx) 1 []
  (splice removed.2 start 0 [removed.1.headD default]).2

/-! ## The rendered table -/

/-- A header cell element `th`: its node identity, text content, class list and the attributes the
plugin reads and writes. -/
structure Th where
  id : ℕ
  text : String
  classes : List String
  draggable : Option String
  sourceIdx : Option String
  targetIdx : Option String
  deriving DecidableEq

/-- A body cell element `td`. -/
structure Td where
  text : String
  classes : List String
  targetIdx : Option String
  deriving DecidableEq

/-- An entry of `vm.columns`. -/
structure Column where
  title : String
  group : String
  deriving DecidableEq

/-- The component instance `vm` with its rendered `thead` and `tbody`, the closure variable
`draggingIdx` (`none` is `null`) and the identity the next created node receives. -/
structure State (α : Type) where
  columns : List α
  thead : List (List Th)
  tbody : List (List Td)
  draggingIdx : Option JsNum
  nextId : ℕ
  deriving DecidableEq

/-- The selector `th.-col-drop-zone` (`DROP_ZONE`). -/
def isDropZone (th : Th) : Bool := decide ("-col-drop-zone" ∈ th.classes)

/-- The selector `th[draggable=true]` (`DRAGGABLE`). -/
def isDraggable (th : Th) : Bool := decide (th.draggable = some "true")

/-- The selector `.temp` on a body cell. -/
def isTemp (td : Td) : Bool := decide ("temp" ∈ td.classes)

/-- The element of `dropZoneGen(idx)`, a `th` with class `-col-drop-zone` and attribute
`target-idx`, created as node `id`. -/
def dropZoneGen (idx : String) (id : ℕ) : Th :=
  { id := id, text := "", classes := ["-col-drop-zone"], draggable := none, sourceIdx := none,
    targetIdx := some idx }

/-- The element of `extraSpaceTdGen(idx)`, a `td` with class `temp`. -/
def extraSpaceTdGen (idx : Option String) : Td :=
  { text := "", classes := ["temp"], targetIdx := some (attrToString idx) }

/-- The expression `idx - 0.25` on an attribute value, printed by the template literal. -/
def attrMinusQuarter (idx : Option String) : String :=
  numToString ((toNumber idx).sub (JsNum.fin (1 / 4)))

/-- The expression `idx + 0.25` on an attribute value, printed by the template literal: on a
string `+` concatenates, on `undefined` it adds and gives `NaN`. -/
def attrPlusQuarter (idx : Option String) : String :=
  match idx with
  | none => numToString JsNum.nan
  | some s => s ++ numToString (JsNum.fin (1 / 4))

/-- The method `findIndex`, scanning from position `i`. -/
def findIndexFrom {α : Type} (p : α → Bool) (i : ℤ) : List α → ℤ
  | [] => -1
  | x :: xs => if p x then i else findIndexFrom p (i + 1) xs

/-- The method `Array.prototype.findIndex`: the first position whose element satisfies `p`,
or `-1`. -/
def findIndex {α : Type} (p : α → Bool) (l : List α) : ℤ := findIndexFrom p 0 l

/-- The function `setDraggableThAndMapIdx`: every `th` of the header is made draggable and gets
as `source-idx` the position of the first column whose title is its trimmed text. -/
def setDraggableThAndMapIdx (s : State Column) : State Column :=
  { s with
    thead := s.thead.map (fun row => row.map (fun th =>
      let textValue := trim th.text
      let index := findIndex (fun el => decide (el.title = textValue)) s.columns
      { th with draggable := some "true", sourceIdx := some (numToString (JsNum.fin index)) })) }

/-- The loop of `generateDropZones` over the `th` of one row, in document order.  `done` is what
stands left of `this` in the row when its turn comes, so `this` is `th:first-of-type` exactly when
`done` is empty, and `th:last-of-type` exactly when no `th` follows. -/
def generateRow (nextId : ℕ) (done : List Th) : List Th → List Th × ℕ
  | [] => (done, nextId)
  | th :: rest =>
    let idx := th.sourceIdx
    let before :=
      dropZoneGen (if done.isEmpty then attrMinusQuarter idx else attrToString idx) nextId
    if rest.isEmpty then
      generateRow (nextId + 2)
        (done ++ [before, th, dropZoneGen (attrPlusQuarter idx) (nextId + 1)]) rest
    else
      generateRow (nextId + 1) (done ++ [before, th]) rest

/-- The loop of `generateDropZones` over the rows of the header. -/
def generateRows (nextId : ℕ) : List (List Th) → List (List Th) × ℕ
  | [] => ([], nextId)
  | row :: rows =>
    let r := generateRow nextId [] row
    let rs := generateRows r.2 rows
    (r.1 :: rs.1, rs.2)

/-- The function `generateDropZones`: stale drop zones are removed, every `th` gets a drop zone
before it (and the last one of a row one after it), and every `td` of the body gets a placeholder
before it. -/
def generateDropZones {α : Type} (s : State α) : State α :=
  let rows := generateRows s.nextId (s.thead.map (fun row => row.filter (fun th => !isDropZone th)))
  { s with
    thead := rows.1
    tbody := s.tbody.map (fun row => row.flatMap (fun td => [extraSpaceTdGen none, td]))
    nextId := rows.2 }

/-- The function `removeDropZones`. -/
def removeDropZones {α : Type} (s : State α) : State α :=
  { s with
    thead := s.thead.map (fun row => row.filter (fun th => !isDropZone th))
    tbody := s.tbody.map (fun row => row.filter (fun td => !isTemp td)) }

/-! ## The drag controller -/

/-- The method `$.fn.isAllowedToDrop` as one call of `dnd` defines it, on the element `this`;
`draggingIdx` is the closure variable of that call. -/
def isAllowedToDrop (draggingIdx : Option JsNum) (this : Th) : Bool :=
  let targetIdx := toNumber this.targetIdx
  !(JsNum.includes [-1 / 4, 0, 1 / 4, 1] (targetIdx.sub (ofNullable draggingIdx)))

/-- The node `id` of the header, if it is there. -/
def findTh (thead : List (List Th)) (id : ℕ) : Option Th :=
  thead.flatten.find? (fun th => decide (th.id = id))

/-- Apply `f` to the node `id` of the header. -/
def updateTh (f : Th → Th) (id : ℕ) (thead : List (List Th)) : List (List Th) :=
  thead.map (fun row => row.map (fun th => if th.id = id then f th else th))

/-- The method `addClass`. -/
def addClass (c : String) (th : Th) : Th :=
  if c ∈ th.classes then th else { th with classes := th.classes ++ [c] }

/-- The method `removeClass`. -/
def removeClass (c : String) (th : Th) : Th :=
  { th with classes := th.classes.filter (fun x => x != c) }

/-- The `dragstart` handler, delegated to the draggable `th` elements; `this` is the node the
event is for. -/
def onDragstart {α : Type} (s : State α) (this : ℕ) : State α :=
  match findTh s.thead this with
  | none => s
  | some th =>
    if isDraggable th then
      let s1 := generateDropZones s
      { s1 with
        thead := updateTh (addClass "-dragging") this s1.thead
        draggingIdx := some (toNumber th.sourceIdx) }
    else s

/-- The `dragend` handler, delegated to the draggable `th` elements. -/
def onDragend {α : Type} (s : State α) (this : ℕ) : State α :=
  match findTh s.thead this with
  | none => s
  | some th =>
    if isDraggable th then
      removeDropZones
        { s with draggingIdx := none, thead := updateTh (removeClass "-dragging") this s.thead }
    else s

/-- The `dragover` handler, delegated to the drop zones: the `dropEffect` it sets, if it runs.
`installed` is the `draggingIdx` that the `$.fn.isAllowedToDrop` in force reads. -/
def dragoverHandler {α : Type} (installed : Option JsNum) (s : State α) (this : ℕ) :
    Option String :=
  match findTh s.thead this with
  | none => none
  | some th =>
    if isDropZone th then some (if isAllowedToDrop installed th then "move" else "none")
    else none

/-- The `dragenter` handler, delegated to the drop zones. -/
def dragenterHandler {α : Type} (installed : Option JsNum) (s : State α) (this : ℕ) : State α :=
  match findTh s.thead this with
  | none => s
  | some th =>
    if isDropZone th && isAllowedToDrop installed th then
      { s with thead := updateTh (addClass "-droppable") this s.thead }
    else s

/-- The `dragleave` handler, delegated to the drop zones. -/
def dragleaveHandler {α : Type} (installed : Option JsNum) (s : State α) (this : ℕ) : State α :=
  match findTh s.thead this with
  | none => s
  | some th =>
    if isDropZone th && isAllowedToDrop installed th then
      { s with thead := updateTh (removeClass "-droppable") this s.thead }
    else s

/-- The `drop` handler, delegated to the drop zones.  The test `isAllowedToDrop` reads the
variable `installed`; the move `arrMove(columns, draggingIdx, ...)` reads the handler's own
closure variable, the one of its table. -/
def dropHandler {α : Type} [Inhabited α] (installed : Option JsNum) (s : State α) (this : ℕ) :
    State α :=
  match findTh s.thead this with
  | none => s
  | some th =>
    if isDropZone th then
      let s1 := { s with thead := updateTh (removeClass "-droppable") this s.thead }
      if !isAllowedToDrop installed th then s1
      else
        let targetIdx := toNumber th.targetIdx
        removeDropZones { s1 with columns := arrMove s1.columns s1.draggingIdx targetIdx.ceil }
    else s

/-- The `dragover` handler of the table attached last. -/
def onDragover {α : Type} (s : State α) (this : ℕ) : Option String :=
  dragoverHandler s.draggingIdx s this

/-- The `dragenter` handler of the table attached last. -/
def onDragenter {α : Type} (s : State α) (this : ℕ) : State α :=
  dragenterHandler s.draggingIdx s this

/-- The `dragleave` handler of the table attached last. -/
def onDragleave {α : Type} (s : State α) (this : ℕ) : State α :=
  dragleaveHandler s.draggingIdx s this

/-- The `drop` handler of the table attached last. -/
def onDrop {α : Type} [Inhabited α] (s : State α) (this : ℕ) : State α :=
  dropHandler s.draggingIdx s this

/-! ## Several tables on one page -/

/-- The call `dnd(vm)` on a page: the table is attached after the earlier ones, its closure
variable `draggingIdx` starts as `null`, and the immediate watcher on `columns` has run
`setDraggableThAndMapIdx`. -/
def dnd (page : List (State Column)) (vm : State Column) : List (State Column) :=
  page ++ [setDraggableThAndMapIdx { vm with draggingIdx := none }]

/-- The `draggingIdx` that `$.fn.isAllowedToDrop` reads on a page: the closure variable of the
last call of `dnd`. -/
def installedDraggingIdx {α : Type} (page : List (State α)) : Option JsNum :=
  match page.getLast? with
  | none => none
  | some s => s.draggingIdx

/-- The method `$.fn.isAllowedToDrop` in force on a page, on the element `this` of any table. -/
def pageIsAllowedToDrop {α : Type} (page : List (State α)) (this : Th) : Bool :=
  isAllowedToDrop (installedDraggingIdx page) this

/-- Run a handler on table `n` of the page. -/
def updateTable {α : Type} (page : List (State α)) (n : ℕ) (f : State α → State α) :
    List (State α) :=
  match page[n]? with
  | none => page
  | some s => page.set n (f s)

/-- The `dragstart` handler of table `n` of the page. -/
def pageDragstart {α : Type} (page : List (State α)) (n this : ℕ) : List (State α) :=
  updateTable page n (fun s => onDragstart s this)

/-- The `dragend` handler of table `n` of the page. -/
def pageDragend {α : Type} (page : List (State α)) (n this : ℕ) : List (State α) :=
  updateTable page n (fun s => onDragend s this)

/-- The `dragover` handler of table `n` of the page. -/
def pageDragover {α : Type} (page : List (State α)) (n this : ℕ) : Option String :=
  match page[n]? with
  | none => none
  | some s => dragoverHandler (installedDraggingIdx page) s this

/-- The `dragenter` handler of table `n` of the page. -/
def pageDragenter {α : Type} (page : List (State α)) (n this : ℕ) : List (State α) :=
  updateTable page n (fun s => dragenterHandler (installedDraggingIdx page) s this)

/-- The `dragleave` handler of table `n` of the page. -/
def pageDragleave {α : Type} (page : List (State α)) (n this : ℕ) : List (State α) :=
  updateTable page n (fun s => dragleaveHandler (installedDraggingIdx page) s this)

/-- The `drop` handler of table `n` of the page. -/
def pageDrop {α : Type} [Inhabited α] (page : List (State α)) (n this : ℕ) : List (State α) :=
  updateTable page n (fun s => dropHandler (installedDraggingIdx page) s this)

/-! ## Example tables -/

/-- A header cell as the host renders it, before the plugin touched it. -/
def headerCell (id : ℕ) (text : String) : Th :=
  { id := id, text := text, classes := [], draggable := none, sourceIdx := none,
    targetIdx := none }

/-- A data cell as the host renders it. -/
def dataCell (text : String) : Td :=
  { text := text, classes := [], targetIdx := none }

/-- A table of two visible columns and one data row, after `setDraggableThAndMapIdx`. -/
def twoColumnTable : State Column :=
  setDraggableThAndMapIdx
    { columns := [{ title := "A", group := "g1" }, { title := "B", group := "g1" }]
      thead := [[headerCell 0 "A", headerCell 1 "B"]]
      tbody := [[dataCell "a1", dataCell "b1"]]
      draggingIdx := none
      nextId := 2 }

/-- A table with one stale drop zone, target index `2`, and no drag session. -/
def staleZoneTable : State String :=
  { columns := ["A", "B", "C"]
    thead := [[dropZoneGen "2" 0]]
    tbody := []
    draggingIdx := none
    nextId := 1 }

/-- A header cell after `setDraggableThAndMapIdx` gave it the source index `idx`. -/
def mappedCell (id : ℕ) (text : String) (idx : ℚ) : Th :=
  { id := id, text := text, classes := [], draggable := some "true",
    sourceIdx := some (numToString (JsNum.fin idx)), targetIdx := none }

/-- A table of three visible columns, its header mapped. -/
def threeColumnTable : State String :=
  { columns := ["A", "B", "C"]
    thead := [[mappedCell 0 "A" 0, mappedCell 1 "B" 1, mappedCell 2 "C" 2]]
    tbody := []
    draggingIdx := none
    nextId := 3 }

/-- A component of three visible columns `A`, `B`, `C` as the host renders it. -/
def threeColumnVm : State Column :=
  { columns := [{ title := "A", group := "g1" }, { title := "B", group := "g1" },
      { title := "C", group := "g2" }]
    thead := [[headerCell 0 "A", headerCell 1 "B", headerCell 2 "C"]]
    tbody := []
    draggingIdx := none
    nextId := 3 }

/-- A page of two such tables: `dnd(vm1)`, then `dnd(vm2)`. -/
def twoTablesPage : List (State Column) := dnd (dnd [] threeColumnVm) threeColumnVm

/-- A multiple of `0.25`: the values target indices and source indices take. -/
def IsQuarter (t : ℚ) : Prop := ∃ k : ℤ, t = (k : ℚ) / 4

/-- The source index of the specification for a cell text: the position of the first column with
exactly that title, and `-1` when no column has it. -/
def IsFirstTitleMatch (columns : List Column) (text : String) (idx : ℤ) : Prop :=
  (∃ n : ℕ, idx = (n : ℤ) ∧ (columns[n]?).map Column.title = some text ∧
      ∀ m : ℕ, m < n → (columns[m]?).map Column.title ≠ some text) ∨
    (idx = -1 ∧ ∀ c ∈ columns, c.title ≠ text)

/-! ## The move as the specification words it -/

/-- The move of the specification: remove the element at position `i`, then insert it at position
`ceil(t) - 1` when `i < t` and at position `ceil(t)` when `i > t`.  The specification says nothing
for `t = i`; the sequence is then left as it is. -/
def specMove {α : Type} [Inhabited α] (columns : List α) (i : ℕ) (t : ℚ) : List α :=
  if (i : ℚ) < t then (columns.eraseIdx i).insertIdx (⌈t⌉ - 1).toNat (columns.getD i default)
  else if t < (i : ℚ) then (columns.eraseIdx i).insertIdx (⌈t⌉).toNat (columns.getD i default)
  else columns

/-! ## Arithmetic of `splice` -/

theorem toInteger_intCast (z : ℤ) : (JsNum.fin (z : ℚ)).toInteger = z := by
  simp [JsNum.toInteger]

theorem toInteger_natCast (n : ℕ) : (JsNum.fin (n : ℚ)).toInteger = n := by
  have := toInteger_intCast (n : ℤ)
  simpa using this

/-- Removing one element at a valid position. -/
theorem splice_remove_one {α : Type} (arr : List α) (i : ℕ) (hi : i < arr.length) :
    splice arr (JsNum.fin (i : ℚ)) 1 [] = ([arr[i]], arr.eraseIdx i) := by
  have h2 : min (((1 : ℕ) : ℤ)) ((arr.length : ℤ) - (i : ℤ)) = 1 := by omega
  have h1 : min (i : ℤ) (arr.length : ℤ) = i := by omega
  simp only [splice, toInteger_natCast]
  rw [if_neg (by omega), h1, h2]
  simp only [Int.toNat_ofNat, Int.toNat_one, List.append_nil]
  refine Prod.ext ?_ ?_
  · simp only
    rw [List.drop_eq_getElem_cons hi, List.take_succ_cons, List.take_zero]
  · simp only
    rw [List.eraseIdx_eq_take_drop_succ]

/-- Inserting one element at an integer position inside the array. -/
theorem splice_insert_one {α : Type} (arr : List α) (p : ℤ) (x : α) (h0 : 0 ≤ p)
    (hp : p ≤ arr.length) :
    (splice arr (JsNum.fin (p : ℚ)) 0 [x]).2 = arr.insertIdx p.toNat x := by
  obtain ⟨n, rfl⟩ := Int.eq_ofNat_of_zero_le h0
  have hn : n ≤ arr.length := by omega
  have h1 : min (n : ℤ) (arr.length : ℤ) = n := by omega
  have h2 : min (((0 : ℕ) : ℤ)) ((arr.length : ℤ) - (n : ℤ)) = 0 := by omega
  simp only [splice, toInteger_intCast]
  rw [if_neg (by omega), h1, h2]
  simp only [Int.toNat_ofNat, Int.toNat_zero, Nat.add_zero]
  clear h1 h2 h0 hp
  induction arr generalizing n with
  | nil =>
    have : n = 0 := by simpa using hn
    subst this
    simp
  | cons a as ih =>
    cases n with
    | zero => simp
    | succ m =>
      have hm : m ≤ as.length := by simpa using hn
      simpa using ih m hm

/-- Inserting one element at an integer position at or past the end appends it. -/
theorem splice_insert_clamped {α : Type} (arr : List α) (p : ℤ) (x : α) (hp : (arr.length : ℤ) ≤ p) :
    (splice arr (JsNum.fin (p : ℚ)) 0 [x]).2 = arr ++ [x] := by
  have h1 : min p (arr.length : ℤ) = arr.length := by omega
  have h2 : min (((0 : ℕ) : ℤ)) ((arr.length : ℤ) - (arr.length : ℤ)) = 0 := by omega
  simp only [splice, toInteger_intCast]
  rw [if_neg (by omega), h1, h2]
  simp

/-! ## Printing and reading numbers -/

theorem digitValue_digitChar (d : ℕ) (hd : d < 10) : digitValue (digitChar d) = some d := by
  interval_cases d <;> rfl

theorem isSome_digitValue_iff (c : Char) :
    (digitValue c).isSome = true ↔ 48 ≤ c.toNat ∧ c.toNat ≤ 57 := by
  unfold digitValue
  split <;> simp_all

theorem isWhiteSpace_of_digit (c : Char) (h : (digitValue c).isSome = true) :
    isWhiteSpace c = false := by
  rw [isSome_digitValue_iff] at h
  simp only [isWhiteSpace, decide_eq_false_iff_not, List.mem_cons, List.not_mem_nil, or_false]
  omega

theorem ne_of_digit (c d : Char) (h : (digitValue c).isSome = true)
    (hd : (digitValue d).isSome = false) : c ≠ d := by
  intro hcd
  rw [hcd, hd] at h
  exact Bool.false_ne_true h

theorem digitsValueAux_append (acc : ℕ) (xs ys : List Char) :
    digitsValueAux acc (xs ++ ys) = (digitsValueAux acc xs).bind (fun a => digitsValueAux a ys) := by
  induction xs generalizing acc with
  | nil => simp [digitsValueAux]
  | cons c cs ih =>
    simp only [List.cons_append, digitsValueAux]
    cases digitValue c with
    | none => simp
    | some d => simp [ih]

theorem natDigits_ne_nil (fuel n : ℕ) : natDigits (fuel + 1) n ≠ [] := by
  unfold natDigits
  split <;> simp

theorem digit_of_mem_natDigits (fuel n : ℕ) :
    ∀ c ∈ natDigits fuel n, (digitValue c).isSome = true := by
  induction fuel generalizing n with
  | zero => simp [natDigits]
  | succ f ih =>
    intro c hc
    unfold natDigits at hc
    split at hc
    · rename_i hlt
      rw [List.mem_singleton] at hc
      rw [hc, digitValue_digitChar n hlt]
      rfl
    · rw [List.mem_append, List.mem_singleton] at hc
      rcases hc with hc | hc
      · exact ih _ c hc
      · rw [hc, digitValue_digitChar _ (Nat.mod_lt _ (by norm_num))]
        rfl

theorem digitsValueAux_natDigits (fuel n : ℕ) (h : n < fuel) :
    digitsValueAux 0 (natDigits fuel n) = some n := by
  induction fuel generalizing n with
  | zero => omega
  | succ f ih =>
    unfold natDigits
    split
    · rename_i hlt
      simp [digitsValueAux, digitValue_digitChar n hlt]
    · rename_i hge
      have h10 : n / 10 < f := by omega
      rw [digitsValueAux_append, ih _ h10]
      simp only [Option.some_bind, digitsValueAux,
        digitValue_digitChar _ (Nat.mod_lt n (by norm_num : 0 < 10))]
      congr 1
      omega

theorem digitsValueAux_natToChars (n : ℕ) : digitsValueAux 0 (natToChars n) = some n :=
  digitsValueAux_natDigits (n + 1) n (Nat.lt_succ_self n)

theorem dropWhile_of_head {α : Type} (p : α → Bool) (l : List α)
    (h : ∀ a, l.head? = some a → p a = false) : l.dropWhile p = l := by
  cases l with
  | nil => rfl
  | cons a as =>
    have := h a rfl
    simp [List.dropWhile_cons, this]

theorem trimChars_eq_self (l : List Char) (h : ∀ c ∈ l, isWhiteSpace c = false) :
    trimChars l = l := by
  unfold trimChars
  rw [dropWhile_of_head isWhiteSpace l (fun a ha => h a (List.mem_of_mem_head? ha)),
    dropWhile_of_head isWhiteSpace l.reverse
      (fun a ha => h a (List.mem_reverse.mp (List.mem_of_mem_head? ha))),
    List.reverse_reverse]

/-- An unsigned run of digits reads as the number it prints. -/
theorem parseUnsigned_natToChars (n : ℕ) : parseUnsigned (natToChars n) = JsNum.fin (n : ℚ) := by
  have hdig : ∀ c ∈ natToChars n, (c != '.') = true := fun c hc => by
    simpa using ne_of_digit c '.' (digit_of_mem_natDigits _ _ c hc) (by decide)
  have h1 : (natToChars n).takeWhile (fun c => c != '.') = natToChars n :=
    List.takeWhile_eq_self_iff.mpr hdig
  have h2 : (natToChars n).dropWhile (fun c => c != '.') = [] :=
    List.dropWhile_eq_nil_iff.mpr hdig
  have h3 : (natToChars n).isEmpty = false := by
    have := natDigits_ne_nil n n
    cases h : natToChars n with
    | nil => exact absurd h this
    | cons a as => rfl
  simp only [parseUnsigned, h1, h2, h3, List.drop_nil, Bool.false_and, digitsValueAux_natToChars,
    digitsValueAux]
  simp

/-- A run of digits followed by `0.25` reads as ten times the run plus a quarter. -/
theorem parseUnsigned_natToChars_append (n : ℕ) :
    parseUnsigned (natToChars n ++ ['0', '.', '2', '5']) = JsNum.fin (10 * (n : ℚ) + 1 / 4) := by
  have hdig : ∀ c ∈ natToChars n, (c != '.') = true := fun c hc => by
    simpa using ne_of_digit c '.' (digit_of_mem_natDigits _ _ c hc) (by decide)
  have h1 : (natToChars n ++ ['0', '.', '2', '5']).takeWhile (fun c => c != '.') =
      natToChars n ++ ['0'] := by
    rw [List.takeWhile_append_of_pos hdig]
    rfl
  have h2 : (natToChars n ++ ['0', '.', '2', '5']).dropWhile (fun c => c != '.') =
      ['.', '2', '5'] := by
    rw [List.dropWhile_append_of_pos hdig]
    rfl
  have h3 : (natToChars n ++ ['0']).isEmpty = false := by
    cases natToChars n <;> rfl
  have h4 : digitsValueAux 0 (natToChars n ++ ['0']) = some (10 * n) := by
    rw [digitsValueAux_append, digitsValueAux_natToChars]
    rfl
  have h5 : digitsValueAux 0 ['2', '5'] = some 25 := by decide
  simp only [parseUnsigned, h1, h2, h3, h4, h5, List.drop_succ_cons, List.drop_zero,
    Bool.false_and]
  simp only [Bool.false_eq_true, if_false, List.length_cons, List.length_nil]
  congr 1
  push_cast
  norm_num

/-- An integer prints as its sign and the digits of its absolute value. -/
theorem numToString_intCast (z : ℤ) :
    numToString (JsNum.fin (z : ℚ)) =
      String.mk ((if z < 0 then ['-'] else []) ++ natToChars z.natAbs) := by
  have habs : |(z : ℚ)| = ((z.natAbs : ℤ) : ℚ) := by
    rw [← Int.cast_abs, Int.abs_eq_natAbs]
  have hfrac : fracDigits 20 0 = [] := by simp [fracDigits]
  simp only [numToString, habs, Int.floor_intCast, Int.toNat_ofNat, sub_self, hfrac,
    List.isEmpty_nil, if_true, List.append_nil, Int.cast_lt_zero]

theorem numToString_natCast (n : ℕ) :
    numToString (JsNum.fin (n : ℚ)) = String.mk (natToChars n) := by
  have := numToString_intCast (n : ℤ)
  simpa using this

/-- Reading back a printed integer gives the integer. -/
theorem stringToNumber_numToString_intCast (z : ℤ) :
    stringToNumber (numToString (JsNum.fin (z : ℚ))) = JsNum.fin (z : ℚ) := by
  have hws : ∀ c ∈ natToChars z.natAbs, isWhiteSpace c = false := fun c hc =>
    isWhiteSpace_of_digit c (digit_of_mem_natDigits _ _ c hc)
  have hne : (natToChars z.natAbs).isEmpty = false := by
    have := natDigits_ne_nil z.natAbs z.natAbs
    cases h : natToChars z.natAbs with
    | nil => exact absurd h this
    | cons a as => rfl
  rw [numToString_intCast]
  by_cases hz : z < 0
  · have htrim : trimChars ('-' :: natToChars z.natAbs) = '-' :: natToChars z.natAbs := by
      apply trimChars_eq_self
      intro c hc
      rcases List.mem_cons.mp hc with h | h
      · rw [h]; decide
      · exact hws c h
    have hval : -((z.natAbs : ℕ) : ℚ) = (z : ℚ) := by
      have : ((z.natAbs : ℤ)) = -z := by omega
      have h2 : ((z.natAbs : ℕ) : ℚ) = ((z.natAbs : ℤ) : ℚ) := (Int.cast_natCast _).symm
      rw [h2, this]
      push_cast
      ring
    simp only [stringToNumber, if_pos hz, List.singleton_append, htrim, List.isEmpty_cons,
      List.head?_cons, List.tail_cons, parseUnsigned_natToChars, JsNum.neg, hval]
    simp
  · have htrim : trimChars (natToChars z.natAbs) = natToChars z.natAbs :=
      trimChars_eq_self _ hws
    have hval : ((z.natAbs : ℕ) : ℚ) = (z : ℚ) := by
      have : ((z.natAbs : ℤ)) = z := by omega
      have h2 : ((z.natAbs : ℕ) : ℚ) = ((z.natAbs : ℤ) : ℚ) := (Int.cast_natCast _).symm
      rw [h2, this]
    have hhead : ∀ d : Char, (digitValue d).isSome = false →
        (natToChars z.natAbs).head? ≠ some d := by
      intro d hd hh
      exact ne_of_digit d d (digit_of_mem_natDigits _ _ d (List.mem_of_mem_head? hh)) hd rfl
    simp only [stringToNumber, if_neg hz, List.nil_append, htrim, hne, Bool.false_eq_true,
      if_false, hhead '-' (by decide), hhead '+' (by decide), parseUnsigned_natToChars, hval]

/-- Reading back a printed natural number with `0.25` appended gives ten times the number plus a
quarter. -/
theorem stringToNumber_append_quarter (n : ℕ) :
    stringToNumber (numToString (JsNum.fin (n : ℚ)) ++ numToString (JsNum.fin (1 / 4))) =
      JsNum.fin (10 * (n : ℚ) + 1 / 4) := by
  have hq : numToString (JsNum.fin (1 / 4)) = String.mk ['0', '.', '2', '5'] := by decide!
  have hws : ∀ c ∈ natToChars n ++ ['0', '.', '2', '5'], isWhiteSpace c = false := by
    intro c hc
    rcases List.mem_append.mp hc with h | h
    · exact isWhiteSpace_of_digit c (digit_of_mem_natDigits _ _ c h)
    · simp only [List.mem_cons, List.not_mem_nil, or_false] at h
      rcases h with rfl | rfl | rfl | rfl <;> decide
  have hne : (natToChars n ++ ['0', '.', '2', '5']).isEmpty = false := by
    cases natToChars n <;> rfl
  have hhead : ∀ d : Char, (digitValue d).isSome = false →
      (natToChars n ++ ['0', '.', '2', '5']).head? ≠ some d := by
    intro d hd hh
    have hmem := List.mem_of_mem_head? hh
    rcases List.mem_append.mp hmem with h | h
    · exact ne_of_digit d d (digit_of_mem_natDigits _ _ d h) hd rfl
    · have h0 : (natToChars n ++ ['0', '.', '2', '5']).head? = (natToChars n).head?.or (some '0') := by
        cases natToChars n <;> rfl
      rw [h0] at hh
      cases hn : (natToChars n).head? with
      | none =>
        rw [hn] at hh
        simp only [Option.or, Option.some.injEq] at hh
        rw [← hh] at hd
        exact absurd hd (by decide)
      | some a =>
        rw [hn] at hh
        simp only [Option.or, Option.some.injEq] at hh
        have := digit_of_mem_natDigits _ _ a (List.mem_of_mem_head? hn)
        rw [hh, hd] at this
        exact Bool.false_ne_true this
  rw [numToString_natCast, hq]
  simp only [stringToNumber, String.data_append, trimChars_eq_self _ hws, hne,
    Bool.false_eq_true, if_false, hhead '-' (by decide), hhead '+' (by decide),
    parseUnsigned_natToChars_append]

/-- The move on a valid source position and an integer target inside the array: the element is
erased and inserted again, one position lower when the source lies left of the target. -/
theorem arrMove_eq_insertIdx {α : Type} [Inhabited α] (columns : List α) (i : ℕ) (c : ℤ)
    (hi : i < columns.length) (h0 : 0 ≤ c) (hn : c ≤ columns.length) :
    arrMove columns (some (JsNum.fin (i : ℚ))) (JsNum.fin (c : ℚ)) =
      (columns.eraseIdx i).insertIdx (if (i : ℤ) < c then c - 1 else c).toNat columns[i] := by
  have hlen : ((columns.eraseIdx i).length : ℤ) = (columns.length : ℤ) - 1 := by
    rw [List.length_eraseIdx, if_pos hi]
    omega
  have hcast : ((i : ℚ) < (c : ℚ)) ↔ (i : ℤ) < c := by
    rw [← Int.cast_natCast, Int.cast_lt]
  have hsub : (c : ℚ) - 1 = ((c - 1 : ℤ) : ℚ) := by push_cast; ring
  simp only [arrMove, ofNullable, JsNum.lt, JsNum.sub]
  rw [splice_remove_one columns i hi]
  simp only [List.headD_cons]
  by_cases hlt : (i : ℤ) < c
  · rw [if_pos (by simpa using hcast.mpr hlt), if_pos hlt, hsub]
    exact splice_insert_one _ _ _ (by omega) (by omega)
  · rw [if_neg (by simpa using fun h => hlt (hcast.mp h)), if_neg hlt]
    exact splice_insert_one _ _ _ h0 (by omega)

/-- The sequence with position `i` erased and its element put back at position `p`. -/
theorem perm_insertIdx_eraseIdx {α : Type} (l : List α) (i p : ℕ) (hi : i < l.length)
    (hp : p ≤ (l.eraseIdx i).length) : ((l.eraseIdx i).insertIdx p l[i]).Perm l := by
  have h1 : ((l.eraseIdx i).insertIdx p l[i]).Perm (l[i] :: l.eraseIdx i) :=
    List.perm_insertIdx _ _ hp
  have h2 : (l[i] :: l.eraseIdx i).Perm l := by
    rw [List.eraseIdx_eq_take_drop_succ]
    have h3 : l = l.take i ++ l[i] :: l.drop (i + 1) := by
      rw [List.getElem_cons_drop, List.take_append_drop]
    exact (List.perm_middle.symm.trans (List.Perm.of_eq h3.symm))
  exact h1.trans h2

/-- Filtering out the moved element gives the same list before and after a move. -/
theorem filter_insertIdx_eraseIdx {α : Type} [DecidableEq α] (l : List α) (i p : ℕ)
    (hi : i < l.length) (hp : p ≤ (l.eraseIdx i).length) :
    ((l.eraseIdx i).insertIdx p l[i]).filter (fun x => x != l[i]) =
      l.filter (fun x => x != l[i]) := by
  have hins : ∀ (m : List α) (q : ℕ) (x : α), q ≤ m.length →
      (m.insertIdx q x).filter (fun y => y != x) = m.filter (fun y => y != x) := by
    intro m
    induction m with
    | nil =>
      intro q x hq
      have : q = 0 := by simpa using hq
      subst this
      simp
    | cons a as ih =>
      intro q x hq
      cases q with
      | zero => simp
      | succ q =>
        have hq2 : q ≤ as.length := by simpa using hq
        rw [List.insertIdx_succ_cons, List.filter_cons, List.filter_cons, ih q x hq2]
  have h3 : l = l.take i ++ l[i] :: l.drop (i + 1) := by
    rw [List.getElem_cons_drop, List.take_append_drop]
  generalize l[i] = x at h3 ⊢
  rw [hins _ _ _ hp, List.eraseIdx_eq_take_drop_succ]
  have h4 : l.filter (fun y => y != x) =
      (l.take i ++ x :: l.drop (i + 1)).filter (fun y => y != x) :=
    congrArg (List.filter (fun y => y != x)) h3
  rw [h4]
  simp

/-! ## The move operation -/

/-- C1: for a source position `i` inside the column sequence and a target index `t`, a multiple
of `0.25` other than `i` with `0 ≤ ceil(t) ≤ n`, the move of the drop handler,
`arrMove(columns, i, ceil(t))`, is the sequence with the element at `i` removed and inserted
again at `ceil(t) - 1` when `i < t` and at `ceil(t)` when `i > t`. -/
theorem arrMove_eq_specMove {α : Type} [Inhabited α] (columns : List α) (i : ℕ) (t : ℚ)
    (hi : i < columns.length) (_hq : IsQuarter t) (hne : t ≠ (i : ℚ)) (h0 : 0 ≤ ⌈t⌉)
    (hn : ⌈t⌉ ≤ (columns.length : ℤ)) :
    arrMove columns (some (JsNum.fin (i : ℚ))) (JsNum.fin t).ceil = specMove columns i t := by
  have hget : columns.getD i default = columns[i] := List.getD_eq_getElem _ _ hi
  simp only [JsNum.ceil]
  rw [arrMove_eq_insertIdx columns i ⌈t⌉ hi h0 hn, specMove, hget]
  by_cases h : (i : ℚ) < t
  · have h2 : (i : ℤ) < ⌈t⌉ := Int.lt_ceil.mpr (by simpa using h)
    rw [if_pos h, if_pos h2]
  · have h1 : t < (i : ℚ) := lt_of_le_of_ne (not_lt.mp h) hne
    have h2 : ¬ (i : ℤ) < ⌈t⌉ := by
      rw [not_lt, Int.ceil_le]
      simpa using h1.le
    rw [if_neg h, if_pos h1, if_neg h2]

/-- C1 at `[A,B,C,D]`, `i = 0`, `t = 2`: the move gives `[B,A,C,D]`. -/
theorem arrMove_eq_specMove_witness :
    arrMove ["A", "B", "C", "D"] (some (JsNum.fin ((0 : ℕ) : ℚ))) (JsNum.fin 2).ceil =
        specMove ["A", "B", "C", "D"] 0 2 ∧
      specMove ["A", "B", "C", "D"] 0 2 = ["B", "A", "C", "D"] :=
  ⟨arrMove_eq_specMove ["A", "B", "C", "D"] 0 2 (by decide) ⟨8, by norm_num⟩ (by norm_num)
      (by decide!) (by decide!), by decide!⟩

/-- C2: for pairwise distinct columns, a source position `i` and a target index `t` with
`0 ≤ ceil(t) < n` and `ceil(t) ≠ i`, the move `arrMove(columns, i, ceil(t))` gives a permutation
of the same length in which the moved column sits immediately before the column that was at
`ceil(t)`, and in which the other columns keep their order. -/
theorem arrMove_before_target {α : Type} [Inhabited α] [DecidableEq α] (columns : List α)
    (i : ℕ) (t : ℚ) (hnd : columns.Nodup) (hi : i < columns.length) (h0 : 0 ≤ ⌈t⌉)
    (hc : (⌈t⌉).toNat < columns.length) (hne : ⌈t⌉ ≠ (i : ℤ)) :
    (arrMove columns (some (JsNum.fin (i : ℚ))) (JsNum.fin t).ceil).Perm columns ∧
      (arrMove columns (some (JsNum.fin (i : ℚ))) (JsNum.fin t).ceil).length = columns.length ∧
      List.indexOf columns[i] (arrMove columns (some (JsNum.fin (i : ℚ))) (JsNum.fin t).ceil) + 1 =
        List.indexOf columns[(⌈t⌉).toNat]
          (arrMove columns (some (JsNum.fin (i : ℚ))) (JsNum.fin t).ceil) ∧
      List.indexOf columns[(⌈t⌉).toNat]
          (arrMove columns (some (JsNum.fin (i : ℚ))) (JsNum.fin t).ceil) < columns.length ∧
      (arrMove columns (some (JsNum.fin (i : ℚ))) (JsNum.fin t).ceil).filter
          (fun x => x != columns[i]) = columns.filter (fun x => x != columns[i]) := by
  obtain ⟨c, hcz⟩ := Int.eq_ofNat_of_zero_le h0
  have hc2 : c < columns.length := by simpa [hcz] using hc
  have hci : c ≠ i := fun h => hne (by rw [hcz, h])
  have hE : (columns.eraseIdx i).length = columns.length - 1 := List.length_eraseIdx_of_lt hi
  simp only [JsNum.ceil]
  rw [arrMove_eq_insertIdx columns i ⌈t⌉ hi h0 (by omega)]
  simp only [hcz, Int.toNat_ofNat, Nat.cast_lt]
  -- the position the moved column is inserted at
  obtain ⟨p, hp, hpE, hnext⟩ : ∃ p : ℕ, (if i < c then (c : ℤ) - 1 else (c : ℤ)).toNat = p ∧
      p < (columns.eraseIdx i).length ∧
      ∀ h : p < (columns.eraseIdx i).length, (columns.eraseIdx i)[p] = columns[c] := by
    by_cases hlt : i < c
    · refine ⟨c - 1, by rw [if_pos hlt]; omega, by omega, fun h => ?_⟩
      rw [List.getElem_eraseIdx_of_ge _ _ _ h (by omega)]
      congr 1
      omega
    · refine ⟨c, by rw [if_neg hlt]; simp, by omega, fun h => ?_⟩
      rw [List.getElem_eraseIdx_of_lt _ _ _ h (by omega)]
  rw [hp]
  have hperm := perm_insertIdx_eraseIdx columns i p hi hpE.le
  have hlen : ((columns.eraseIdx i).insertIdx p columns[i]).length = columns.length :=
    hperm.length_eq
  have hnd2 : ((columns.eraseIdx i).insertIdx p columns[i]).Nodup := hperm.nodup_iff.mpr hnd
  have hp1 : p < ((columns.eraseIdx i).insertIdx p columns[i]).length := by omega
  have hp2 : p + 1 < ((columns.eraseIdx i).insertIdx p columns[i]).length := by omega
  have hx : ((columns.eraseIdx i).insertIdx p columns[i])[p] = columns[i] :=
    List.getElem_insertIdx_self _ _ _ hpE.le
  have hy : ((columns.eraseIdx i).insertIdx p columns[i])[p + 1] = columns[c] := by
    have := List.getElem_insertIdx_add_succ (columns.eraseIdx i) columns[i] p 0 (by simpa using hpE)
      (by simpa using (by omega : p + 1 < ((columns.eraseIdx i).insertIdx p columns[i]).length))
    simp only [Nat.add_zero] at this
    rw [this]
    exact hnext hpE
  have ix : List.indexOf columns[i] ((columns.eraseIdx i).insertIdx p columns[i]) = p := by
    have := List.indexOf_getElem hnd2 p (by omega)
    rwa [hx] at this
  have iy : List.indexOf columns[c] ((columns.eraseIdx i).insertIdx p columns[i]) = p + 1 := by
    have := List.indexOf_getElem hnd2 (p + 1) (by omega)
    rwa [hy] at this
  refine ⟨hperm, hlen, ?_, ?_, filter_insertIdx_eraseIdx columns i p hi hpE.le⟩
  · rw [ix, iy]
  · rw [iy]
    omega

/-- C2 at `[A,B,C]`, `i = 2`, `t = 0`: the move gives `[C,A,B]`. -/
theorem arrMove_before_target_witness :
    (arrMove ["A", "B", "C"] (some (JsNum.fin ((2 : ℕ) : ℚ))) (JsNum.fin 0).ceil).Perm
        ["A", "B", "C"] ∧
      arrMove ["A", "B", "C"] (some (JsNum.fin ((2 : ℕ) : ℚ))) (JsNum.fin 0).ceil =
        ["C", "A", "B"] :=
  ⟨(arrMove_before_target ["A", "B", "C"] 2 0 (by decide) (by decide) (by decide!) (by decide!)
      (by decide!)).1, by decide!⟩

/-! ## The validity rule -/

/-- The validity rule of one call of `dnd`, when the variable the function reads holds the source
index `i` of the session, as it does for the table attached last: on a drop zone whose
`target-idx` reads as the number `t` (both multiples of `0.25`), `isAllowedToDrop` is false
exactly when `t - i` is one of `-0.25`, `0`, `0.25`, `1`, and true for every other difference. -/
theorem isAllowedToDrop_eq_false_iff (i t : ℚ) (zone : Th) (_hi : IsQuarter i)
    (_ht : IsQuarter t) (hz : toNumber zone.targetIdx = JsNum.fin t) :
    (isAllowedToDrop (some (JsNum.fin i)) zone = false ↔
        (t - i = -1 / 4 ∨ t - i = 0 ∨ t - i = 1 / 4 ∨ t - i = 1)) ∧
      (isAllowedToDrop (some (JsNum.fin i)) zone = true ↔
        ¬ (t - i = -1 / 4 ∨ t - i = 0 ∨ t - i = 1 / 4 ∨ t - i = 1)) := by
  have key : isAllowedToDrop (some (JsNum.fin i)) zone =
      !decide (t - i ∈ [(-1 : ℚ) / 4, 0, 1 / 4, 1]) := by
    simp only [isAllowedToDrop, hz, ofNullable, JsNum.sub, JsNum.includes]
  have mem : t - i ∈ [(-1 : ℚ) / 4, 0, 1 / 4, 1] ↔
      (t - i = -1 / 4 ∨ t - i = 0 ∨ t - i = 1 / 4 ∨ t - i = 1) := by
    simp only [List.mem_cons, List.not_mem_nil, or_false]
  rw [key, ← mem]
  constructor
  · rw [Bool.not_eq_false', decide_eq_true_iff]
  · rw [Bool.not_eq_true', decide_eq_false_iff_not]

/-- The validity rule of one call at `i = 2`: the zones with target index `1.75`, `2`, `2.25` and
`3` are rejected, the zone with target index `5` is accepted. -/
theorem isAllowedToDrop_eq_false_iff_witness :
    isAllowedToDrop (some (JsNum.fin 2)) (dropZoneGen "1.75" 0) = false ∧
      isAllowedToDrop (some (JsNum.fin 2)) (dropZoneGen "2" 0) = false ∧
      isAllowedToDrop (some (JsNum.fin 2)) (dropZoneGen "2.25" 0) = false ∧
      isAllowedToDrop (some (JsNum.fin 2)) (dropZoneGen "3" 0) = false ∧
      isAllowedToDrop (some (JsNum.fin 2)) (dropZoneGen "5" 0) = true :=
  ⟨((isAllowedToDrop_eq_false_iff 2 (7 / 4) (dropZoneGen "1.75" 0) ⟨8, by norm_num⟩
      ⟨7, by norm_num⟩ (by decide!)).1).mpr (Or.inl (by norm_num)),
    by decide!, by decide!, by decide!, by decide!⟩

/-- Table `n` of a page, when it is the one attached last, gets its handler run with its own
`draggingIdx` as the variable `$.fn.isAllowedToDrop` reads. -/
theorem updateTable_last {α : Type} (pre : List (State α)) (s : State α)
    (f : State α → State α) : updateTable (pre ++ [s]) pre.length f = pre ++ [f s] := by
  simp only [updateTable, List.getElem?_concat_length]
  rw [List.set_append_right _ _ (Nat.le_refl _)]
  simp

theorem installedDraggingIdx_last {α : Type} (pre : List (State α)) (s : State α) :
    installedDraggingIdx (pre ++ [s]) = s.draggingIdx := by
  simp only [installedDraggingIdx, List.getLast?_concat]

/-- On the table attached last the handlers of the page are `onDragover` and `onDrop`. -/
theorem pageDrop_last {α : Type} [Inhabited α] (pre : List (State α)) (s : State α) (this : ℕ) :
    pageDrop (pre ++ [s]) pre.length this = pre ++ [onDrop s this] ∧
      pageDragover (pre ++ [s]) pre.length this = onDragover s this ∧
      pageIsAllowedToDrop (pre ++ [s]) = isAllowedToDrop s.draggingIdx := by
  refine ⟨?_, ?_, ?_⟩
  · rw [pageDrop, updateTable_last, installedDraggingIdx_last, onDrop]
  · simp only [pageDragover, List.getElem?_concat_length, installedDraggingIdx_last, onDragover]
  · funext this
    rw [pageIsAllowedToDrop, installedDraggingIdx_last]

/-- C3 on a page of two tables of columns `A`, `B`, `C`, attached by `dnd(vm1)` then `dnd(vm2)`,
with `dragstart` on the cell `C` (source index `2`) of the first table: the session of the first
table holds `2`, but `$.fn.isAllowedToDrop` is the one of the second call and reads its
`draggingIdx`, which is `null`.  The zones of the first table read `-0.25`, `1`, `2`, `20.25`;
the zone with target index `2`, for which `t - i = 0`, is accepted (`2 - null = 2`) and `dragover`
on it sets `move`, while the function of the first call rejects it. -/
theorem isAllowedToDrop_after_second_dnd :
    ((pageDragstart twoTablesPage 0 2)[0]?).map (fun s => s.draggingIdx) =
        some (some (JsNum.fin 2)) ∧
      installedDraggingIdx (pageDragstart twoTablesPage 0 2) = none ∧
      ((pageDragstart twoTablesPage 0 2)[0]?).map
          (fun s => s.thead.map (fun row => (row.filter isDropZone).map (fun z => z.targetIdx))) =
        some [[some "-0.25", some "1", some "2", some "20.25"]] ∧
      ((pageDragstart twoTablesPage 0 2)[0]?).bind (fun s => findTh s.thead 5) =
        some (dropZoneGen "2" 5) ∧
      pageIsAllowedToDrop (pageDragstart twoTablesPage 0 2) (dropZoneGen "2" 5) = true ∧
      pageDragover (pageDragstart twoTablesPage 0 2) 0 5 = some "move" ∧
      isAllowedToDrop (some (JsNum.fin 2)) (dropZoneGen "2" 5) = false := by
  decide!

/-! ## The index mapper -/

theorem findIndexFrom_spec {α : Type} (p : α → Bool) (l : List α) (i : ℤ) :
    (∃ n : ℕ, findIndexFrom p i l = i + (n : ℤ) ∧ (l[n]?).map p = some true ∧
        ∀ m : ℕ, m < n → (l[m]?).map p ≠ some true) ∨
      (findIndexFrom p i l = -1 ∧ ∀ x ∈ l, p x = false) := by
  induction l generalizing i with
  | nil => exact Or.inr ⟨rfl, by simp⟩
  | cons a as ih =>
    by_cases ha : p a = true
    · refine Or.inl ⟨0, by simp [findIndexFrom, ha], by simp [ha], by simp⟩
    · rcases ih (i + 1) with ⟨n, h1, h2, h3⟩ | ⟨h1, h2⟩
      · refine Or.inl ⟨n + 1, ?_, by simpa using h2, ?_⟩
        · simp only [findIndexFrom, if_neg ha, h1]
          push_cast
          ring
        · intro m hm
          cases m with
          | zero => simp [ha]
          | succ k => simpa using h3 k (by omega)
      · refine Or.inr ⟨by simp only [findIndexFrom, if_neg ha, h1], ?_⟩
        intro x hx
        rcases List.mem_cons.mp hx with h | h
        · rw [h]; simpa using ha
        · exact h2 x h

/-- C6: after `setDraggableThAndMapIdx` the column sequence is unchanged, the header holds the
same cells with the same texts, every cell is draggable, and its `source-idx` is the printed
position of the first column whose title equals the trimmed cell text, `-1` when there is none;
read back with unary plus it is that number. -/
theorem setDraggableThAndMapIdx_spec (s : State Column) :
    (setDraggableThAndMapIdx s).columns = s.columns ∧
      (setDraggableThAndMapIdx s).thead.map (fun row => row.map Th.text) =
        s.thead.map (fun row => row.map Th.text) ∧
      ∀ row ∈ (setDraggableThAndMapIdx s).thead, ∀ th ∈ row,
        isDraggable th = true ∧
          ∃ idx : ℤ, th.sourceIdx = some (numToString (JsNum.fin (idx : ℚ))) ∧
            toNumber th.sourceIdx = JsNum.fin (idx : ℚ) ∧
            IsFirstTitleMatch s.columns (trim th.text) idx := by
  refine ⟨rfl, ?_, ?_⟩
  · simp [setDraggableThAndMapIdx, Function.comp_def]
  · intro row hrow th hth
    simp only [setDraggableThAndMapIdx, List.mem_map] at hrow
    obtain ⟨row0, _, rfl⟩ := hrow
    obtain ⟨th0, _, rfl⟩ := List.mem_map.mp hth
    refine ⟨by simp [isDraggable], _, rfl, ?_, ?_⟩
    · simp only [toNumber]
      exact stringToNumber_numToString_intCast _
    · simp only
      rcases findIndexFrom_spec (fun el : Column => decide (el.title = trim th0.text)) s.columns 0
        with ⟨n, h1, h2, h3⟩ | ⟨h1, h2⟩
      · refine Or.inl ⟨n, by simpa [findIndex] using h1, ?_, ?_⟩
        · cases hc : s.columns[n]? with
          | none => simp [hc] at h2
          | some c => simpa [hc] using h2
        · intro m hm
          have := h3 m hm
          cases hc : s.columns[m]? with
          | none => simp
          | some c => simpa [hc] using this
      · refine Or.inr ⟨by simpa [findIndex] using h1, ?_⟩
        intro c hc
        simpa using h2 c hc

/-! ## Placeholder cells -/

theorem countP_isTemp_placeholders (row : List Td) (h : ∀ td ∈ row, isTemp td = false) :
    (row.flatMap (fun td => [extraSpaceTdGen none, td])).countP isTemp = row.length := by
  induction row with
  | nil => rfl
  | cons a as ih =>
    have ha : isTemp a = false := h a (List.mem_cons_self _ _)
    have hph : isTemp (extraSpaceTdGen none) = true := by decide
    rw [List.flatMap_cons, List.countP_append, ih (fun td htd => h td (List.mem_cons_of_mem _ htd))]
    simp [List.countP_cons, ha, hph]
    omega

/-- C7, as stated, fails: a data row of two cells holds two placeholder cells after
`generateDropZones`, not one. -/
theorem generateDropZones_two_placeholders :
    twoColumnTable.tbody.map (List.countP isTemp) = [0] ∧
      (generateDropZones twoColumnTable).tbody =
        [[extraSpaceTdGen none, dataCell "a1", extraSpaceTdGen none, dataCell "b1"]] ∧
      (generateDropZones twoColumnTable).tbody.map (List.countP isTemp) = [2] := by
  decide!

/-- C7, amended: when the body holds no placeholder cell, `generateDropZones` puts one placeholder
cell immediately before every data cell, so a data row of `m` cells holds exactly `m` placeholder
cells afterwards. -/
theorem generateDropZones_placeholders {α : Type} (s : State α)
    (h : ∀ row ∈ s.tbody, ∀ td ∈ row, isTemp td = false) :
    (generateDropZones s).tbody =
        s.tbody.map (fun row => row.flatMap (fun td => [extraSpaceTdGen none, td])) ∧
      (generateDropZones s).tbody.map (List.countP isTemp) = s.tbody.map List.length := by
  refine ⟨rfl, ?_⟩
  simp only [generateDropZones, List.map_map]
  apply List.map_congr_left
  intro row hrow
  exact countP_isTemp_placeholders row (h row hrow)

/-- C7, amended, on the table of two columns: its one data row of two cells gets two placeholder
cells. -/
theorem generateDropZones_placeholders_witness :
    (generateDropZones twoColumnTable).tbody.map (List.countP isTemp) =
      twoColumnTable.tbody.map List.length :=
  (generateDropZones_placeholders twoColumnTable (by decide)).2

/-! ## The validity rule when no session is active -/

theorem isAllowedToDrop_of_null (zone : Th) (t : ℚ) (ht : toNumber zone.targetIdx = JsNum.fin t) :
    isAllowedToDrop none zone = !decide (t = -1 / 4 ∨ t = 0 ∨ t = 1 / 4 ∨ t = 1) := by
  simp only [isAllowedToDrop, ht, ofNullable, JsNum.sub, JsNum.includes, sub_zero, List.mem_cons,
    List.not_mem_nil, or_false]

/-! ## Teardown -/

theorem removeDropZones_removeDropZones {α : Type} (s : State α) :
    removeDropZones (removeDropZones s) = removeDropZones s := by
  simp [removeDropZones, List.filter_filter]

theorem countP_isDropZone_removeDropZones {α : Type} (s : State α) :
    (removeDropZones s).thead.flatten.countP isDropZone = 0 := by
  rw [List.countP_eq_zero]
  intro th hth
  obtain ⟨row, hrow, hmem⟩ := List.mem_flatten.mp hth
  simp only [removeDropZones, List.mem_map] at hrow
  obtain ⟨row0, _, rfl⟩ := hrow
  have := (List.mem_filter.mp hmem).2
  simpa using this

theorem countP_isTemp_removeDropZones {α : Type} (s : State α) :
    (removeDropZones s).tbody.flatten.countP isTemp = 0 := by
  rw [List.countP_eq_zero]
  intro td htd
  obtain ⟨row, hrow, hmem⟩ := List.mem_flatten.mp htd
  simp only [removeDropZones, List.mem_map] at hrow
  obtain ⟨row0, _, rfl⟩ := hrow
  have := (List.mem_filter.mp hmem).2
  simpa using this

theorem removeClass_removeClass (c : String) (th : Th) :
    removeClass c (removeClass c th) = removeClass c th := by
  simp [removeClass, List.filter_filter]

/-- Clearing a class on node `id` a second time changes nothing, also after drop zones were
removed in between. -/
theorem updateTh_removeClass_filter (c : String) (id : ℕ) (q : Th → Bool)
    (thead : List (List Th)) :
    updateTh (removeClass c) id ((updateTh (removeClass c) id thead).map (fun row => row.filter q)) =
      (updateTh (removeClass c) id thead).map (fun row => row.filter q) := by
  have hg : ∀ e : Th,
      (fun th : Th => if th.id = id then removeClass c th else th)
        ((fun th : Th => if th.id = id then removeClass c th else th) e) =
      (fun th : Th => if th.id = id then removeClass c th else th) e := by
    intro e
    by_cases he : e.id = id
    · have he2 : (removeClass c e).id = id := he
      simp only [if_pos he, if_pos he2, removeClass_removeClass]
    · simp only [if_neg he]
  unfold updateTh
  simp only [List.map_map]
  apply List.map_congr_left
  intro row _
  simp only [Function.comp_apply]
  conv_rhs => rw [← List.map_id (List.filter q _)]
  apply List.map_congr_left
  intro e he
  obtain ⟨e0, _, rfl⟩ := List.mem_map.mp (List.mem_filter.mp he).1
  exact hg e0

theorem onDragend_onDragend {α : Type} (s : State α) (this : ℕ) :
    onDragend (onDragend s this) this = onDragend s this := by
  cases hfind : findTh s.thead this with
  | none => simp only [onDragend, hfind]
  | some th =>
    by_cases hd : isDraggable th = true
    · have h1 : onDragend s this = removeDropZones
          { s with draggingIdx := none,
                   thead := updateTh (removeClass "-dragging") this s.thead } := by
        simp only [onDragend, hfind, if_pos hd]
      rw [h1]
      generalize hs1 : removeDropZones
          { s with draggingIdx := none,
                   thead := updateTh (removeClass "-dragging") this s.thead } = s1
      have hthead : updateTh (removeClass "-dragging") this s1.thead = s1.thead := by
        rw [← hs1]
        exact updateTh_removeClass_filter _ _ _ _
      have hdrag : s1.draggingIdx = none := by rw [← hs1]; rfl
      have hrem : removeDropZones s1 = s1 := by
        rw [← hs1]
        exact removeDropZones_removeDropZones _
      cases hfind1 : findTh s1.thead this with
      | none => simp only [onDragend, hfind1]
      | some th1 =>
        by_cases hd1 : isDraggable th1 = true
        · simp only [onDragend, hfind1, if_pos hd1, hthead]
          rw [← hdrag]
          exact hrem
        · simp only [onDragend, hfind1, if_neg hd1]
    · simp only [onDragend, hfind, if_neg hd]

/-- C8: `removeDropZones`, and the `dragend` handler that calls it, give the same header, body
and drag session when run twice as when run once, and leave zero drop zones in the header and
zero placeholder cells in the body; the `dragend` handler also leaves no drag session. -/
theorem teardown_idempotent {α : Type} (s : State α) (this : ℕ) :
    removeDropZones (removeDropZones s) = removeDropZones s ∧
      (removeDropZones s).thead.flatten.countP isDropZone = 0 ∧
      (removeDropZones s).tbody.flatten.countP isTemp = 0 ∧
      onDragend (onDragend s this) this = onDragend s this ∧
      ((findTh s.thead this).any isDraggable = true →
        (onDragend s this).thead.flatten.countP isDropZone = 0 ∧
          (onDragend s this).tbody.flatten.countP isTemp = 0 ∧
          (onDragend s this).draggingIdx = none) := by
  refine ⟨removeDropZones_removeDropZones s, countP_isDropZone_removeDropZones s,
    countP_isTemp_removeDropZones s, onDragend_onDragend s this, ?_⟩
  intro h
  cases hfind : findTh s.thead this with
  | none => simp [hfind] at h
  | some th =>
    have hd : isDraggable th = true := by simpa [hfind] using h
    have h1 : onDragend s this = removeDropZones
        { s with draggingIdx := none,
                 thead := updateTh (removeClass "-dragging") this s.thead } := by
      simp only [onDragend, hfind, if_pos hd]
    rw [h1]
    exact ⟨countP_isDropZone_removeDropZones _, countP_isTemp_removeDropZones _, rfl⟩

/-- C8 on the table of two columns while its second column is dragged: the `dragend` handler
leaves no drop zone, no placeholder cell and no drag session. -/
theorem teardown_idempotent_witness :
    (onDragstart twoColumnTable 1).thead.flatten.countP isDropZone = 3 ∧
      ((onDragend (onDragstart twoColumnTable 1) 1).thead.flatten.countP isDropZone = 0 ∧
        (onDragend (onDragstart twoColumnTable 1) 1).tbody.flatten.countP isTemp = 0 ∧
        (onDragend (onDragstart twoColumnTable 1) 1).draggingIdx = none) :=
  ⟨by decide!, (teardown_idempotent (onDragstart twoColumnTable 1) 1).2.2.2.2 (by decide!)⟩

/-! ## A drop without a drag session -/

/-- C5, as stated, fails: with no drag session, a drop on a zone with target index `2` moves the
first column behind the second. -/
theorem onDrop_without_session_moves :
    staleZoneTable.draggingIdx = none ∧ staleZoneTable.columns = ["A", "B", "C"] ∧
      (onDrop staleZoneTable 0).columns = ["B", "A", "C"] := by
  decide!

/-- C5, amended: a drop handled while `draggingIdx` is `null` is handled as in a session with
source index `0`.  On a zone whose target index `t` is one of `-0.25`, `0`, `0.25`, `1` the column
sequence is unchanged; on a zone with any other numeric target index the handler performs
`arrMove(columns, null, ceil(t))`. -/
theorem onDrop_without_session {α : Type} [Inhabited α] (s : State α) (this : ℕ) (zone : Th)
    (t : ℚ) (hs : s.draggingIdx = none) (hfind : findTh s.thead this = some zone)
    (hzone : isDropZone zone = true) (ht : toNumber zone.targetIdx = JsNum.fin t) :
    (onDrop s this).columns =
        (onDrop { s with draggingIdx := some (JsNum.fin 0) } this).columns ∧
      ((t = -1 / 4 ∨ t = 0 ∨ t = 1 / 4 ∨ t = 1) → (onDrop s this).columns = s.columns) ∧
      (¬ (t = -1 / 4 ∨ t = 0 ∨ t = 1 / 4 ∨ t = 1) →
        (onDrop s this).columns = arrMove s.columns none (JsNum.fin ((⌈t⌉ : ℤ) : ℚ))) := by
  have hallow := isAllowedToDrop_of_null zone t ht
  refine ⟨?_, ?_, ?_⟩
  · simp only [onDrop, dropHandler, hfind, hzone, if_true, hs, isAllowedToDrop, arrMove,
      ofNullable]
    split <;> rfl
  · intro h
    have hfalse : isAllowedToDrop none zone = false := by
      rw [hallow, Bool.not_eq_false', decide_eq_true_iff]
      exact h
    simp only [onDrop, dropHandler, hfind, hzone, if_true, hs, hfalse, Bool.not_false]
  · intro h
    have htrue : isAllowedToDrop none zone = true := by
      rw [hallow, Bool.not_eq_true', decide_eq_false_iff_not]
      exact h
    simp only [onDrop, dropHandler, hfind, hzone, if_true, hs, htrue, Bool.not_true,
      Bool.false_eq_true,
      if_false, removeDropZones, ht, JsNum.ceil]

/-- C5, amended, on the stale zone with target index `2`: the handler performs
`arrMove(columns, null, 2)`. -/
theorem onDrop_without_session_witness :
    (onDrop staleZoneTable 0).columns = arrMove ["A", "B", "C"] none (JsNum.fin ((⌈(2 : ℚ)⌉ : ℤ) : ℚ)) :=
  (onDrop_without_session staleZoneTable 0 (dropZoneGen "2" 0) 2 rfl (by decide!) (by decide!)
    (by decide!)).2.2 (by norm_num)

/-! ## Drop zones -/

/-- The move on a valid source position and an integer target at or past the end of the array:
the element is erased and appended. -/
theorem arrMove_past_end {α : Type} [Inhabited α] (columns : List α) (i : ℕ) (c : ℤ)
    (hi : i < columns.length) (hc : (columns.length : ℤ) ≤ c) :
    arrMove columns (some (JsNum.fin (i : ℚ))) (JsNum.fin (c : ℚ)) =
      columns.eraseIdx i ++ [columns[i]] := by
  have hlen : ((columns.eraseIdx i).length : ℤ) = (columns.length : ℤ) - 1 := by
    rw [List.length_eraseIdx, if_pos hi]
    omega
  have hlt : ((i : ℚ) < (c : ℚ)) := by
    rw [← Int.cast_natCast, Int.cast_lt]
    omega
  have hsub : (c : ℚ) - 1 = ((c - 1 : ℤ) : ℚ) := by push_cast; ring
  simp only [arrMove, ofNullable, JsNum.lt, JsNum.sub]
  rw [splice_remove_one columns i hi, if_pos (by simpa using hlt), hsub]
  simp only [List.headD_cons]
  exact splice_insert_clamped _ _ _ (by omega)

/-- The row `generateDropZones` builds ends with the drop zone made from `idx + 0.25` of the last
cell; every element before it is a cell of the row or a drop zone created earlier. -/
theorem generateRow_last (todo : List Th) :
    ∀ (n : ℕ) (done : List Th) (last : Th), todo.getLast? = some last →
      ∃ mid : List Th,
        (generateRow n done todo).1 =
            done ++ mid ++ [dropZoneGen (attrPlusQuarter last.sourceIdx) (n + todo.length)] ∧
          ∀ x ∈ mid, x ∈ todo ∨ (n ≤ x.id ∧ x.id < n + todo.length) := by
  induction todo with
  | nil => intro n done last h; simp at h
  | cons th rest ih =>
    intro n done last hlast
    cases rest with
    | nil =>
      have hl : last = th := by simpa using hlast.symm
      subst hl
      refine ⟨[dropZoneGen (if done.isEmpty then attrMinusQuarter last.sourceIdx
        else attrToString last.sourceIdx) n, last], ?_, ?_⟩
      · simp [generateRow]
      · intro x hx
        simp only [List.mem_cons, List.not_mem_nil, or_false] at hx
        rcases hx with rfl | rfl
        · right
          simp [dropZoneGen]
        · left
          simp
    | cons th2 rest2 =>
      have hlast2 : (th2 :: rest2).getLast? = some last := by
        simpa [List.getLast?_cons_cons] using hlast
      obtain ⟨mid, hmid, hids⟩ := ih (n + 1)
        (done ++ [dropZoneGen (if done.isEmpty then attrMinusQuarter th.sourceIdx
          else attrToString th.sourceIdx) n, th]) last hlast2
      refine ⟨[dropZoneGen (if done.isEmpty then attrMinusQuarter th.sourceIdx
        else attrToString th.sourceIdx) n, th] ++ mid, ?_, ?_⟩
      · have hgen : generateRow n done (th :: th2 :: rest2) =
            generateRow (n + 1)
              (done ++ [dropZoneGen (if done.isEmpty then attrMinusQuarter th.sourceIdx
                else attrToString th.sourceIdx) n, th]) (th2 :: rest2) := by
          simp [generateRow]
        rw [hgen, hmid]
        simp only [List.length_cons, List.append_assoc]
        have harith : n + 1 + (rest2.length + 1) = n + (rest2.length + 1 + 1) := by omega
        rw [harith]
      · intro x hx
        rcases List.mem_append.mp hx with h | h
        · simp only [List.mem_cons, List.not_mem_nil, or_false] at h
          rcases h with rfl | rfl
          · right
            simp [dropZoneGen]
          · left
            simp
        · rcases hids x h with h2 | h2
          · left
            exact List.mem_cons_of_mem _ h2
          · right
            simp only [List.length_cons] at h2 ⊢
            omega

/-- In a row of pairwise distinct node identities, looking a cell up by identity finds it. -/
theorem find_by_id (row : List Th) (h : (row.map Th.id).Nodup) (cell : Th) (hc : cell ∈ row) :
    row.find? (fun th => decide (th.id = cell.id)) = some cell := by
  induction row with
  | nil => simp at hc
  | cons a as ih =>
    rw [List.map_cons, List.nodup_cons] at h
    by_cases ha : a.id = cell.id
    · rcases List.mem_cons.mp hc with h1 | h1
      · simp [h1]
      · exact absurd (ha ▸ List.mem_map_of_mem Th.id h1) h.1
    · rcases List.mem_cons.mp hc with h1 | h1
      · exact absurd (by rw [h1]) ha
      · rw [List.find?_cons_of_neg _ (by simpa using ha)]
        exact ih h.2 h1

/-- Looking up a node identity that only the last element has finds the last element. -/
theorem find_last_by_id (pre : List Th) (z : Th) (h : ∀ x ∈ pre, x.id ≠ z.id) :
    (pre ++ [z]).find? (fun th => decide (th.id = z.id)) = some z := by
  have hnone : pre.find? (fun th => decide (th.id = z.id)) = none := by
    rw [List.find?_eq_none]
    intro x hx
    simpa using h x hx
  rw [List.find?_append, hnone]
  simp

theorem addClass_id (c : String) (th : Th) : (addClass c th).id = th.id := by
  unfold addClass
  split <;> rfl

theorem isAllowedToDrop_of_session (zone : Th) (i t : ℚ)
    (ht : toNumber zone.targetIdx = JsNum.fin t) :
    isAllowedToDrop (some (JsNum.fin i)) zone =
      !decide (t - i = -1 / 4 ∨ t - i = 0 ∨ t - i = 1 / 4 ∨ t - i = 1) := by
  simp only [isAllowedToDrop, ht, ofNullable, JsNum.sub, JsNum.includes, List.mem_cons,
    List.not_mem_nil, or_false]

/-- The header after `dragstart` on a cell of a single mapped row: the row ends with the drop zone
made from `idx + 0.25` of the last cell, no other element has its node identity, the columns are
untouched and the session holds the source index of the dragged cell. -/
theorem onDragstart_single_row {α : Type} (s : State α) (row : List Th) (dragged last : Th)
    (hthead : s.thead = [row])
    (hzones : ∀ cell ∈ row, isDropZone cell = false)
    (hids : (row.map Th.id).Nodup) (hfresh : ∀ cell ∈ row, cell.id < s.nextId)
    (hdragged : dragged ∈ row) (hdrag : isDraggable dragged = true)
    (hlast : row.getLast? = some last) :
    ∃ pre : List Th,
      (onDragstart s dragged.id).thead =
          [pre ++ [dropZoneGen (attrPlusQuarter last.sourceIdx) (s.nextId + row.length)]] ∧
        (∀ x ∈ pre, x.id ≠ s.nextId + row.length) ∧
        (onDragstart s dragged.id).columns = s.columns ∧
        (onDragstart s dragged.id).draggingIdx = some (toNumber dragged.sourceIdx) := by
  have hfilter : row.filter (fun th => !isDropZone th) = row := by
    rw [List.filter_eq_self]
    intro a ha
    simp [hzones a ha]
  have hfind : findTh s.thead dragged.id = some dragged := by
    rw [findTh, hthead]
    simp only [List.flatten_cons, List.flatten_nil, List.append_nil]
    exact find_by_id row hids dragged hdragged
  obtain ⟨mid, hgen, hmid⟩ := generateRow_last row s.nextId [] last hlast
  have hz : (dropZoneGen (attrPlusQuarter last.sourceIdx) (s.nextId + row.length)).id ≠
      dragged.id := by
    have := hfresh dragged hdragged
    simp only [dropZoneGen]
    omega
  refine ⟨mid.map (fun th => if th.id = dragged.id then addClass "-dragging" th else th),
    ?_, ?_, ?_, ?_⟩
  · have hfind2 : findTh [row] dragged.id = some dragged := hthead ▸ hfind
    simp only [onDragstart, hfind, if_pos hdrag, generateDropZones, hthead, List.map_cons,
      List.map_nil, hfilter, generateRows, hgen, updateTh, List.nil_append, List.map_append,
      if_neg hz, hfind2]
  · intro x hx
    obtain ⟨x0, hx0, rfl⟩ := List.mem_map.mp hx
    have hid : (if x0.id = dragged.id then addClass "-dragging" x0 else x0).id = x0.id := by
      split
      · exact addClass_id _ _
      · rfl
    rw [hid]
    rcases hmid x0 hx0 with h | h
    · have := hfresh x0 h
      omega
    · omega
  · simp only [onDragstart, hfind, if_pos hdrag, generateDropZones]
  · simp only [onDragstart, hfind, if_pos hdrag]

/-- C10: in a table of `N ≥ 2` columns, all visible in one header row whose cells carry the source
indices `0 .. N-1` as `setDraggableThAndMapIdx` prints them, after `dragstart` on cell `k < N-1`
the last element of the row is the after-last drop zone; `isAllowedToDrop` accepts it, and the
`drop` handler on it leaves the columns with column `k` removed and appended at the end. -/
theorem drop_on_after_last_zone {α : Type} [Inhabited α] (s : State α) (row : List Th) (k : ℕ)
    (dragged : Th) (hthead : s.thead = [row]) (hlen : row.length = s.columns.length)
    (hk : k + 1 < s.columns.length)
    (hrow : ∀ (j : ℕ) (cell : Th), row[j]? = some cell →
      cell.sourceIdx = some (numToString (JsNum.fin (j : ℚ))) ∧ isDraggable cell = true ∧
        isDropZone cell = false)
    (hids : (row.map Th.id).Nodup) (hfresh : ∀ cell ∈ row, cell.id < s.nextId)
    (hdragged : row[k]? = some dragged) :
    ∃ zone : Th,
      (onDragstart s dragged.id).thead.getLast?.bind List.getLast? = some zone ∧
        isDropZone zone = true ∧
        isAllowedToDrop (onDragstart s dragged.id).draggingIdx zone = true ∧
        (onDrop (onDragstart s dragged.id) zone.id).columns =
          s.columns.eraseIdx k ++ [s.columns[k]] := by
  have hmemD : dragged ∈ row := List.getElem?_mem hdragged
  have hzones : ∀ cell ∈ row, isDropZone cell = false := by
    intro cell hc
    obtain ⟨j, hj⟩ := List.mem_iff_getElem?.mp hc
    exact (hrow j cell hj).2.2
  have hlastIdx : row[row.length - 1]? = some (row[row.length - 1]) :=
    List.getElem?_eq_getElem (by omega)
  have hlast : row.getLast? = some (row[row.length - 1]) := by
    rw [List.getLast?_eq_getElem?, hlastIdx]
  generalize row[row.length - 1] = last at hlastIdx hlast
  have hsrcLast := (hrow _ last hlastIdx).1
  have hsrcD := (hrow k dragged hdragged).1
  obtain ⟨pre, hthead1, hpre, hcols, hsession⟩ := onDragstart_single_row s row dragged last
    hthead hzones hids hfresh hmemD (hrow k dragged hdragged).2.1 hlast
  have hsess2 : (onDragstart s dragged.id).draggingIdx = some (JsNum.fin (k : ℚ)) := by
    rw [hsession, hsrcD]
    simp only [toNumber]
    have := stringToNumber_numToString_intCast (k : ℤ)
    simpa using this
  generalize hzdef : dropZoneGen (attrPlusQuarter last.sourceIdx) (s.nextId + row.length) = z
    at hthead1
  have hzid : z.id = s.nextId + row.length := by rw [← hzdef]; rfl
  have hzDZ : isDropZone z = true := by rw [← hzdef]; rfl
  have htarget : toNumber z.targetIdx =
      JsNum.fin (10 * ((row.length - 1 : ℕ) : ℚ) + 1 / 4) := by
    rw [← hzdef]
    simp only [dropZoneGen, hsrcLast, attrPlusQuarter, toNumber]
    exact stringToNumber_append_quarter _
  have hM : (k : ℚ) + 1 ≤ ((row.length - 1 : ℕ) : ℚ) := by
    exact_mod_cast (by omega : k + 1 ≤ row.length - 1)
  have hallowed : isAllowedToDrop (some (JsNum.fin (k : ℚ))) z = true := by
    rw [isAllowedToDrop_of_session z _ _ htarget, Bool.not_eq_true', decide_eq_false_iff_not]
    rintro (h | h | h | h) <;> linarith
  have hceil : (toNumber z.targetIdx).ceil =
      JsNum.fin (((10 * ((row.length - 1 : ℕ) : ℤ) + 1 : ℤ)) : ℚ) := by
    rw [htarget]
    simp only [JsNum.ceil]
    congr 2
    rw [Int.ceil_eq_iff]
    push_cast
    constructor <;> norm_num
  have hfindZ : findTh (onDragstart s dragged.id).thead z.id = some z := by
    rw [hthead1, findTh]
    simp only [List.flatten_cons, List.flatten_nil, List.append_nil]
    exact find_last_by_id pre z (fun x hx => by rw [hzid]; exact hpre x hx)
  refine ⟨z, ?_, hzDZ, ?_, ?_⟩
  · rw [hthead1]
    simp
  · rw [hsess2]
    exact hallowed
  · have hcolsDrop : (onDrop (onDragstart s dragged.id) z.id).columns =
        arrMove s.columns (some (JsNum.fin (k : ℚ))) (toNumber z.targetIdx).ceil := by
      simp only [onDrop, dropHandler, hfindZ, hzDZ, if_true, hsess2, hallowed, Bool.not_true,
        Bool.false_eq_true, if_false, removeDropZones, hcols]
    rw [hcolsDrop, hceil]
    exact arrMove_past_end s.columns k _ (by omega) (by omega)

/-- C10 on the table of three columns, first column dragged: the after-last zone is accepted and
the drop on it gives `[B,C,A]`. -/
theorem drop_on_after_last_zone_witness :
    (∃ zone : Th,
      (onDragstart threeColumnTable (mappedCell 0 "A" 0).id).thead.getLast?.bind List.getLast? =
          some zone ∧
        isDropZone zone = true ∧
        isAllowedToDrop (onDragstart threeColumnTable (mappedCell 0 "A" 0).id).draggingIdx zone =
          true ∧
        (onDrop (onDragstart threeColumnTable (mappedCell 0 "A" 0).id) zone.id).columns =
          ["B", "C", "A"]) ∧
      (onDragstart threeColumnTable 0).thead.getLast?.bind List.getLast? =
        some (dropZoneGen "20.25" 6) ∧
      (onDrop (onDragstart threeColumnTable 0) 6).columns = ["B", "C", "A"] := by
  refine ⟨?_, by decide!, by decide!⟩
  obtain ⟨zone, h1, h2, h3, h4⟩ := drop_on_after_last_zone threeColumnTable
    [mappedCell 0 "A" 0, mappedCell 1 "B" 1, mappedCell 2 "C" 2] 0 (mappedCell 0 "A" 0) rfl rfl
    (by decide)
    (by
      intro j cell hj
      match j, hj with
      | 0, hj =>
        have hc : cell = mappedCell 0 "A" 0 := by simpa using hj.symm
        subst hc
        exact ⟨by simp [mappedCell], by decide, by decide⟩
      | 1, hj =>
        have hc : cell = mappedCell 1 "B" 1 := by simpa using hj.symm
        subst hc
        exact ⟨by simp [mappedCell], by decide, by decide⟩
      | 2, hj =>
        have hc : cell = mappedCell 2 "C" 2 := by simpa using hj.symm
        subst hc
        exact ⟨by simp [mappedCell], by decide, by decide⟩
      | n + 3, hj => simp at hj)
    (by decide) (by decide) rfl
  exact ⟨zone, h1, h2, h3, h4⟩

/-- C4 on the table of two columns, whose cells carry the source indices `0` and `1`: the three
drop zones read back as `-0.25`, `1` and `10.25`, because `idx + 0.25` on the string `1`
concatenates; the specification has `1.25` for the last one. -/
theorem generateDropZones_after_last_concatenates :
    twoColumnTable.thead.map (fun row => row.map (fun th => th.sourceIdx)) =
        [[some "0", some "1"]] ∧
      (generateDropZones twoColumnTable).thead.map
          (fun row => (row.filter isDropZone).map (fun z => z.targetIdx)) =
        [[some "-0.25", some "1", some "10.25"]] ∧
      (generateDropZones twoColumnTable).thead.map
          (fun row => (row.filter isDropZone).map (fun z => toNumber z.targetIdx)) =
        [[JsNum.fin (-1 / 4), JsNum.fin 1, JsNum.fin (41 / 4)]] := by
  decide!

/-- C9 on the table of two columns, second column dragged: the header row is zone, cell, zone,
cell, zone, and of the three zones only the one left of the dragged cell is rejected; the one
right of it, the after-last zone with target index `10.25`, is accepted. -/
theorem isAllowedToDrop_right_of_last_cell :
    (onDragstart twoColumnTable 1).draggingIdx = some (JsNum.fin 1) ∧
      (onDragstart twoColumnTable 1).thead.map (fun row => row.map isDropZone) =
        [[true, false, true, false, true]] ∧
      (onDragstart twoColumnTable 1).thead.map
          (fun row => row.map (fun th => toNumber th.targetIdx)) =
        [[JsNum.fin (-1 / 4), JsNum.nan, JsNum.fin 1, JsNum.nan, JsNum.fin (41 / 4)]] ∧
      (onDragstart twoColumnTable 1).thead.map
          (fun row => (row.filter isDropZone).map
            (isAllowedToDrop (onDragstart twoColumnTable 1).draggingIdx)) =
        [[true, false, true]] := by
  decide!

end HeaderSettingsDnD
